import Mathlib

/-!
Verification of the pain-tracker application's client-side logic.

This file is a shallow embedding, in Lean 4, of the pieces of the
repository that carry logic of their own:

* the entry aggregator `chartData` in `src/components/pain/PainChart.tsx`
  (filter by date window, bucket by calendar day, average, label, sort);
* the attachment guard `validateFile` and the batch handler
  `handleFileChange` of the feedback page;
* the sequential upload loop of the feedback `onSubmit`;
* the zod schemas (`entrySchema`, `registerSchema`, `settingsSchema`);
* the storage-layer declarative rule for `feedback-attachments`.

Modelling conventions:

* JavaScript `Date` values are modelled by `DateTime`: a calendar day
  `(y, m, d)` plus a time-of-day `ms`.  Comparison of `Date` objects in
  JavaScript is comparison of millisecond timestamps; for valid calendar
  data that order coincides with the lexicographic order on
  `(y, m, d, ms)`, which is how `dtLe` is defined (via `dtKey` into a
  lexicographic product).
* `format(date, 'yyyy-MM-dd')` is injective on the calendar-day triple,
  so the string key of the bucketing object is modelled by the `Day`
  triple itself; JavaScript object keys of this shape are kept in
  insertion order, which the association-list `upsert` reproduces.
* `format(date, 'MMM d')` is modelled by `labelMMMd`; re-parsing such a
  year-less label with `new Date(label)` yields a date in the parser's
  default year, so `.getTime()` comparison of two such parses orders them
  lexicographically by (month, day) only — `parseLabel`/`pairLt` model
  exactly that.  `Array.prototype.sort` is stable (ES2019), modelled by a
  stable insertion sort.
* `Number((totalPain / count).toFixed(1))` is modelled by `round1` on the
  exact rational quotient: round to one decimal, ties toward +∞, the
  rounding ECMAScript `toFixed` specifies on exactly representable
  values.  Pain levels are numbers, modelled as `ℚ`.
-/

/-- A calendar day, the bucketing key (`format(date, 'yyyy-MM-dd')`). -/
structure Day where
  y : ℕ
  m : ℕ
  d : ℕ
deriving DecidableEq, Repr

/-- A JavaScript `Date`: calendar day plus time of day in milliseconds. -/
structure DateTime where
  day : Day
  ms : ℕ
deriving DecidableEq, Repr

/-- The timestamp order key of a `Date`: lexicographic on (y, m, d, ms). -/
def dtKey (a : DateTime) : ℕ ×ₗ ℕ ×ₗ ℕ ×ₗ ℕ :=
  toLex (a.day.y, toLex (a.day.m, toLex (a.day.d, a.ms)))

/-- JavaScript `a <= b` on `Date` values (timestamp comparison). -/
def dtLe (a b : DateTime) : Bool :=
  decide (dtKey a ≤ dtKey b)

/-- The `PainEntry` interface of `src/lib/types.ts`. -/
structure PainEntry where
  id : String
  userId : String
  painLevel : ℚ
  date : DateTime
  notes : String
  createdAt : DateTime
deriving DecidableEq, Repr

/-- The constant `MAX_FILE_SIZE = 5 * 1024 * 1024` (5 MB), shared by every call site. -/
def MAX_FILE_SIZE : ℕ := 5 * 1024 * 1024

/-- The constant `ACCEPTED_IMAGE_TYPES`, the declared content-type allow-list. -/
def ACCEPTED_IMAGE_TYPES : List String :=
  ["image/jpeg", "image/jpg", "image/png", "image/webp"]

/-- The observable data of a candidate `File`: name, byte size, MIME type. -/
structure FileData where
  name : String
  size : ℕ
  type : String
deriving DecidableEq, Repr

/-- Outcome of `validateFile`: accepted, or rejected with the reason the
toast distinguishes ("File too large" vs "Invalid file type"). -/
inductive FileCheck where
  | ok
  | tooLarge
  | badType
deriving DecidableEq, Repr

/-- The function `validateFile` of the feedback page: reject when `file.size >
MAX_FILE_SIZE`, then reject when `file.type` is not in
`ACCEPTED_IMAGE_TYPES`, else accept. -/
def validateFile (f : FileData) : FileCheck :=
  if f.size > MAX_FILE_SIZE then .tooLarge
  else if ¬ (f.type ∈ ACCEPTED_IMAGE_TYPES) then .badType
  else .ok

/-- The feedback page's attachment selection state: `selectedFiles` and
`previewUrls`, kept in step by `handleFileChange`. -/
structure FeedbackState where
  selectedFiles : List FileData
  previewUrls : List String
deriving DecidableEq, Repr

/-- The `forEach` body of `handleFileChange`: each valid file is appended
to `newFiles` unless `selectedFiles.length + newFiles.length >= 3`
already holds, in which case the `return` skips just that file (a
`return` inside a `forEach` callback continues with the next element). -/
def processFiles (sel : ℕ) (files : List FileData) : List FileData :=
  files.foldl
    (fun acc f =>
      if validateFile f = .ok then
        if sel + acc.length ≥ 3 then acc
        else acc ++ [f]
      else acc)
    []

/-- The handler `handleFileChange`: run the batch through `processFiles`, then append
the surviving files and their object URLs to the state (`mkUrl` stands
for `URL.createObjectURL`). -/
def handleFileChange (st : FeedbackState) (files : List FileData)
    (mkUrl : FileData → String) : FeedbackState :=
  let nf := processFiles st.selectedFiles.length files
  ⟨st.selectedFiles ++ nf, st.previewUrls ++ nf.map mkUrl⟩

/-- The `removeFile` handler: drop the file and preview URL at index
`i` (`prev.filter((_, idx) => idx !== index)`); an out-of-range index
removes nothing, as in the source. -/
def removeFile (st : FeedbackState) (i : ℕ) : FeedbackState :=
  ⟨st.selectedFiles.eraseIdx i, st.previewUrls.eraseIdx i⟩

/-- The states the feedback form's attachment selection can reach: the
initial empty selection (also restored after a successful submit),
closed under `handleFileChange` and `removeFile`. -/
inductive FormReachable : FeedbackState → Prop
  | init : FormReachable ⟨[], []⟩
  | file (st : FeedbackState) (files : List FileData)
      (mkUrl : FileData → String) :
      FormReachable st → FormReachable (handleFileChange st files mkUrl)
  | remove (st : FeedbackState) (i : ℕ) :
      FormReachable st → FormReachable (removeFile st i)

/-! ## The entry aggregator (`chartData` in `PainChart.tsx`) -/

/-- Bucket key of an entry: `format(entry.date, 'yyyy-MM-dd')` renders the calendar day. -/
def dayOf (t : DateTime) : Day := t.day

/-- Calendar-day order, ignoring time of day: lexicographic on
`(y, m, d)` (chronological order for valid calendar dates). -/
def dayLe (a b : Day) : Bool :=
  decide (toLex (a.y, toLex (a.m, a.d)) ≤ toLex (b.y, toLex (b.m, b.d)))

/-- The filter step of `chartData`:
`entries.filter(e => e.date >= dateRange.from && e.date <= dateRange.to)`. -/
def filterWindow (entries : List PainEntry) (f t : DateTime) : List PainEntry :=
  entries.filter (fun e => dtLe f e.date && dtLe e.date t)

/-- One step of the `reduce` accumulator: if the day is already a key,
add the pain level to `totalPain` and bump `count`; otherwise append a
fresh `(day, (painLevel, 1))` key at the end (JavaScript objects keep
string keys in insertion order). -/
def upsert (D : Day) (p : ℚ) : List (Day × ℚ × ℕ) → List (Day × ℚ × ℕ)
  | [] => [(D, p, 1)]
  | x :: rest =>
    if x.1 = D then (x.1, x.2.1 + p, x.2.2 + 1) :: rest
    else x :: upsert D p rest

/-- The `reduce` of `chartData`: fold the filtered entries into the
insertion-ordered day map. -/
def dailyData (l : List PainEntry) : List (Day × ℚ × ℕ) :=
  l.foldl (fun acc e => upsert (dayOf e.date) e.painLevel acc) []

/-- The month abbreviation `format(date, 'MMM')` produces. -/
def monthName (m : ℕ) : String :=
  match m with
  | 1 => "Jan" | 2 => "Feb" | 3 => "Mar" | 4 => "Apr"
  | 5 => "May" | 6 => "Jun" | 7 => "Jul" | 8 => "Aug"
  | 9 => "Sep" | 10 => "Oct" | 11 => "Nov" | 12 => "Dec"
  | _ => ""

/-- Display label of a bucket: `format(date, 'MMM d')`. -/
def labelMMMd (D : Day) : String :=
  monthName D.m ++ " " ++ toString D.d

/-- Floor of a rational as an integer (numerator floor-divided by
denominator). -/
def ratFloor (q : ℚ) : ℤ :=
  q.num.fdiv q.den

/-- Model of `Number((totalPain / count).toFixed(1))`: round the mean to one
decimal place (ties toward +∞, as `toFixed` specifies). -/
def round1 (q : ℚ) : ℚ :=
  (ratFloor (q * 10 + 1 / 2) : ℚ) / 10

/-- Split a character list at the first space. -/
def splitSpace : List Char → List Char × List Char
  | [] => ([], [])
  | c :: rest =>
    if c = ' ' then ([], rest)
    else
      let s := splitSpace rest
      (c :: s.1, s.2)

/-- Digits to a natural number (the day-of-month part of a label). -/
def digitsToNat (cs : List Char) : ℕ :=
  cs.foldl (fun n c => n * 10 + (c.toNat - 48)) 0

/-- Month abbreviation back to its number (`new Date` month parsing). -/
def monthNum (s : String) : ℕ :=
  if s = "Jan" then 1 else if s = "Feb" then 2 else if s = "Mar" then 3
  else if s = "Apr" then 4 else if s = "May" then 5 else if s = "Jun" then 6
  else if s = "Jul" then 7 else if s = "Aug" then 8 else if s = "Sep" then 9
  else if s = "Oct" then 10 else if s = "Nov" then 11 else if s = "Dec" then 12
  else 0

/-- Re-parse `new Date(label)` of a year-less `'MMM d'` label: the parser fills in
its fixed default year, so the timestamp is determined by (month, day)
alone — the year of the original bucket is lost. -/
def parseLabel (s : String) : ℕ × ℕ :=
  let sp := splitSpace s.toList
  (monthNum (String.mk sp.1), digitsToNat sp.2)

/-- The sort comparator of `chartData`:
`new Date(a.date).getTime() - new Date(b.date).getTime() < 0`, i.e.
strictly earlier under the re-parsed (month, day) key. -/
def pairLt (a b : String × ℚ) : Bool :=
  decide ((parseLabel a.1).1 < (parseLabel b.1).1) ||
    (decide ((parseLabel a.1).1 = (parseLabel b.1).1) &&
      decide ((parseLabel a.1).2 < (parseLabel b.1).2))

/-- Stable insertion of one pair: placed before the first strictly
greater element, after any equal one. -/
def insertSorted (x : String × ℚ) : List (String × ℚ) → List (String × ℚ)
  | [] => [x]
  | y :: ys => if pairLt x y then x :: y :: ys else y :: insertSorted x ys

/-- The sort step of `chartData`: a stable sort under `pairLt`
(`Array.prototype.sort` is stable and the comparator is a consistent
numeric key comparison, so any stable sort gives the same result). -/
def sortPairs (l : List (String × ℚ)) : List (String × ℚ) :=
  l.foldl (fun acc x => insertSorted x acc) []

/-- The aggregator `chartData`: filter by the window, bucket by day, map each bucket to
its `(label, rounded mean)` pair, and sort by the re-parsed label. -/
def chartData (entries : List PainEntry) (f t : DateTime) : List (String × ℚ) :=
  sortPairs
    ((dailyData (filterWindow entries f t)).map
      (fun x => (labelMMMd x.1, round1 (x.2.1 / (x.2.2 : ℚ)))))

/-- The entries of `l` whose calendar day is `D` (a bucket's members). -/
def bucket (l : List PainEntry) (D : Day) : List PainEntry :=
  l.filter (fun e => dayOf e.date = D)

/-- Sum of the pain levels of a list of entries. -/
def sumPain (l : List PainEntry) : ℚ :=
  (l.map PainEntry.painLevel).sum

/-- Lookup of a day's accumulated `(totalPain, count)` in the day map. -/
def findDay : List (Day × ℚ × ℕ) → Day → Option (ℚ × ℕ)
  | [], _ => none
  | x :: rest, D => if x.1 = D then some x.2 else findDay rest D

/-- Effect of one entry on a day's accumulated `(totalPain, count)`. -/
def bump : Option (ℚ × ℕ) → ℚ → ℚ × ℕ
  | none, p => (p, 1)
  | some tc, p => (tc.1 + p, tc.2 + 1)

/-- Accumulated `(totalPain, count)` after folding a list of entries of
one day on top of an optional starting accumulator. -/
def dAcc : Option (ℚ × ℕ) → List PainEntry → Option (ℚ × ℕ)
  | o, [] => o
  | o, e :: rest => dAcc (some (bump o e.painLevel)) rest

/-- The key list (insertion-ordered days) of a day map. -/
def dayKeys (acc : List (Day × ℚ × ℕ)) : List Day :=
  acc.map Prod.fst

/-! ## The feedback submission upload loop -/

/-- The `for (const file of selectedFiles)` loop of the feedback
`onSubmit`: each upload is attempted in queue order; a success pushes
the retrieval URL onto `attachmentUrls`, a failure is caught inside the
loop body (toast only) and the loop continues with the next file.
`up` stands for the combined `uploadBytes`/`getDownloadURL` round trip,
`none` meaning that file's upload failed. -/
def collectUploads (up : FileData → Option String) : List FileData → List String
  | [] => []
  | f :: rest =>
    match up f with
    | some u => u :: collectUploads up rest
    | none => collectUploads up rest

/-- The `FeedbackRecord` document written by `addDoc` (creation
timestamp omitted; it carries no logic). -/
structure FeedbackRecord where
  userId : String
  userEmail : String
  feedback : String
  attachments : List String
deriving DecidableEq, Repr

/-- The feedback `onSubmit` after validation: run the upload loop over
the queued files, then create the feedback document with whichever
retrieval URLs were collected. -/
def submitFeedback (uid email fb : String) (up : FileData → Option String)
    (files : List FileData) : FeedbackRecord :=
  ⟨uid, email, fb, collectUploads up files⟩

/-! ## Form schemas -/

/-- The `displayName` rule of `registerSchema` in `AuthForm.tsx`:
`z.string().min(2, 'Name must be at least 2 characters')` — a lower
length bound only. -/
def registerDisplayNameValid (s : String) : Bool :=
  decide (2 ≤ s.length)

/-- The `displayName` rule of `settingsSchema` in the settings page:
`z.string().min(2).max(50)`. -/
def settingsDisplayNameValid (s : String) : Bool :=
  decide (2 ≤ s.length) && decide (s.length ≤ 50)

/-- The `painLevel` rule of `entrySchema` in `NewEntryForm.tsx`:
`z.number().min(0).max(10)` — a numeric range check with no
integrality constraint. -/
def entryPainLevelValid (q : ℚ) : Bool :=
  decide (0 ≤ q) && decide (q ≤ 10)

/-- The values the entry form's pain slider can produce:
`min={0} max={10} step={1}`, so the integers 0 through 10. -/
def sliderPainValues : List ℚ :=
  (List.range 11).map (fun n : ℕ => (n : ℚ))

/-! ## The storage-layer rule for feedback attachments -/

/-- The declarative `create` rule for `/feedback-attachments/{userId}`:
authenticated, path owner matches, `request.resource.size <
5 * 1024 * 1024` (strict), and the content type matches `image/.*`. -/
def feedbackAttachmentCreateAllowed (authUid : Option String)
    (pathUid : String) (size : ℕ) (contentType : String) : Bool :=
  match authUid with
  | none => false
  | some uid =>
    decide (uid = pathUid) && decide (size < 5 * 1024 * 1024) &&
      contentType.startsWith "image/"

/-! ## Concrete fixtures -/

/-- Scenario entries of the spec: pain 4 and 6 on 2024-01-01, pain 8 on
2024-01-02, all at midnight. -/
def scenEntries : List PainEntry :=
  [⟨"e1", "u", 4, ⟨⟨2024, 1, 1⟩, 0⟩, "", ⟨⟨2024, 1, 1⟩, 0⟩⟩,
   ⟨"e2", "u", 6, ⟨⟨2024, 1, 1⟩, 0⟩, "", ⟨⟨2024, 1, 1⟩, 0⟩⟩,
   ⟨"e3", "u", 8, ⟨⟨2024, 1, 2⟩, 0⟩, "", ⟨⟨2024, 1, 2⟩, 0⟩⟩]

/-- Scenario window start: 2024-01-01. -/
def scenFrom : DateTime := ⟨⟨2024, 1, 1⟩, 0⟩

/-- Scenario window end: 2024-01-02. -/
def scenTo : DateTime := ⟨⟨2024, 1, 2⟩, 0⟩

/-- Year-crossing entries: pain 5 on 2023-12-31, pain 3 on 2024-01-01. -/
def yearEntries : List PainEntry :=
  [⟨"d1", "u", 5, ⟨⟨2023, 12, 31⟩, 0⟩, "", ⟨⟨2023, 12, 31⟩, 0⟩⟩,
   ⟨"d2", "u", 3, ⟨⟨2024, 1, 1⟩, 0⟩, "", ⟨⟨2024, 1, 1⟩, 0⟩⟩]

/-- Year-crossing window start: 2023-12-01. -/
def yearFrom : DateTime := ⟨⟨2023, 12, 1⟩, 0⟩

/-- Year-crossing window end: 2024-01-31. -/
def yearTo : DateTime := ⟨⟨2024, 1, 31⟩, 0⟩

/-- An entry recorded at midnight of 2024-01-05. -/
def midEntry : PainEntry :=
  ⟨"m1", "u", 7, ⟨⟨2024, 1, 5⟩, 0⟩, "", ⟨⟨2024, 1, 5⟩, 0⟩⟩

/-- Window start 2024-01-05 at 10:00 (same calendar day as `midEntry`). -/
def midFrom : DateTime := ⟨⟨2024, 1, 5⟩, 36000000⟩

/-- Window end 2024-01-05 at 12:00. -/
def midTo : DateTime := ⟨⟨2024, 1, 5⟩, 43200000⟩

/-! ## Lemmas about the day map -/

theorem findDay_upsert_eq (D : Day) (p : ℚ) (acc : List (Day × ℚ × ℕ)) :
    findDay (upsert D p acc) D = some (bump (findDay acc D) p) := by
  induction acc with
  | nil => simp [upsert, findDay, bump]
  | cons x rest ih =>
    by_cases h : x.1 = D
    · simp [upsert, h, findDay, bump]
    · simp [upsert, h, findDay, ih]

theorem findDay_upsert_ne (D D' : Day) (p : ℚ) (acc : List (Day × ℚ × ℕ))
    (h : D' ≠ D) :
    findDay (upsert D p acc) D' = findDay acc D' := by
  have hDD : ¬ (D = D') := fun hh => h hh.symm
  induction acc with
  | nil => simp [upsert, findDay, hDD]
  | cons x rest ih =>
    by_cases hx : x.1 = D
    · have hx' : ¬ (x.1 = D') := by rw [hx]; exact hDD
      simp [upsert, hx, findDay, hx', hDD]
    · by_cases hx' : x.1 = D'
      · simp [upsert, hx, findDay, hx', h]
      · simp [upsert, hx, findDay, hx', ih]

theorem dailyData_findDay_aux (l : List PainEntry) :
    ∀ (acc : List (Day × ℚ × ℕ)) (D : Day),
      findDay (l.foldl (fun a e => upsert (dayOf e.date) e.painLevel a) acc) D
        = dAcc (findDay acc D) (bucket l D) := by
  induction l with
  | nil => intro acc D; simp [bucket, dAcc]
  | cons e rest ih =>
    intro acc D
    simp only [List.foldl_cons]
    by_cases h : dayOf e.date = D
    · rw [ih, h, findDay_upsert_eq]
      simp [bucket, List.filter_cons, h, dAcc]
    · rw [ih, findDay_upsert_ne _ _ _ _ (fun hh => h hh.symm)]
      simp [bucket, List.filter_cons, h]

theorem dAcc_some (es : List PainEntry) :
    ∀ t : ℚ, ∀ c : ℕ,
      dAcc (some (t, c)) es = some (t + sumPain es, c + es.length) := by
  induction es with
  | nil => intro t c; simp [dAcc, sumPain]
  | cons e rest ih =>
    intro t c
    simp only [dAcc, bump, ih, sumPain, List.map_cons, List.sum_cons,
      List.length_cons]
    exact congrArg some (by simp only [Prod.mk.injEq]; exact ⟨by ring, by omega⟩)

theorem dAcc_none (es : List PainEntry) (h : es ≠ []) :
    dAcc none es = some (sumPain es, es.length) := by
  cases es with
  | nil => exact absurd rfl h
  | cons e rest =>
    simp only [dAcc, bump, dAcc_some, sumPain, List.map_cons, List.sum_cons,
      List.length_cons]
    exact congrArg some (by simp only [Prod.mk.injEq]; exact ⟨trivial, by omega⟩)

theorem dailyData_findDay (l : List PainEntry) (D : Day) (h : bucket l D ≠ []) :
    findDay (dailyData l) D = some (sumPain (bucket l D), (bucket l D).length) := by
  rw [dailyData, dailyData_findDay_aux l [] D]
  simp only [findDay]
  exact dAcc_none _ h

theorem findDay_mem {acc : List (Day × ℚ × ℕ)} {D : Day} {v : ℚ × ℕ}
    (h : findDay acc D = some v) : (D, v) ∈ acc := by
  induction acc with
  | nil => simp [findDay] at h
  | cons x rest ih =>
    by_cases hx : x.1 = D
    · obtain ⟨a, b⟩ := x
      simp only [findDay] at h
      rw [if_pos hx] at h
      obtain rfl := Option.some.inj h
      have ha : a = D := hx
      subst ha
      exact List.mem_cons_self _ _
    · simp only [findDay] at h
      rw [if_neg hx] at h
      exact List.mem_cons_of_mem _ (ih h)

theorem dayKeys_upsert (D : Day) (p : ℚ) (acc : List (Day × ℚ × ℕ)) :
    dayKeys (upsert D p acc)
      = if D ∈ dayKeys acc then dayKeys acc else dayKeys acc ++ [D] := by
  induction acc with
  | nil => simp [upsert, dayKeys]
  | cons x rest ih =>
    by_cases h : x.1 = D
    · simp [upsert, h, dayKeys]
    · have hne : ¬ (D = x.1) := fun hh => h hh.symm
      simp only [upsert, if_neg h, dayKeys, List.map_cons] at ih ⊢
      rw [ih]
      by_cases hm : D ∈ List.map Prod.fst rest
      · simp [List.mem_cons, hm, hne]
      · simp [List.mem_cons, hm, hne]

theorem dayKeys_upsert_nodup (D : Day) (p : ℚ) (acc : List (Day × ℚ × ℕ))
    (h : (dayKeys acc).Nodup) : (dayKeys (upsert D p acc)).Nodup := by
  rw [dayKeys_upsert]
  by_cases hm : D ∈ dayKeys acc
  · simpa [hm] using h
  · simp [hm, List.nodup_append, h]

theorem dailyData_nodup (l : List PainEntry) : (dayKeys (dailyData l)).Nodup := by
  have aux : ∀ (acc : List (Day × ℚ × ℕ)), (dayKeys acc).Nodup →
      (dayKeys (l.foldl (fun a e => upsert (dayOf e.date) e.painLevel a) acc)).Nodup := by
    induction l with
    | nil => intro acc h; simpa using h
    | cons e rest ih =>
      intro acc h
      simp only [List.foldl_cons]
      exact ih _ (dayKeys_upsert_nodup _ _ _ h)
  exact aux [] (by simp [dayKeys])

theorem findDay_eq_of_mem {acc : List (Day × ℚ × ℕ)} {D : Day} {v : ℚ × ℕ}
    (hnd : (dayKeys acc).Nodup) (h : (D, v) ∈ acc) : findDay acc D = some v := by
  induction acc with
  | nil => simp at h
  | cons x rest ih =>
    rcases List.mem_cons.1 h with heq | hmem
    · obtain rfl := heq.symm
      simp [findDay]
    · have hnd2 : (x.1 :: dayKeys rest).Nodup := by
        rw [show x.1 :: dayKeys rest = dayKeys (x :: rest) from by simp [dayKeys]]
        exact hnd
      have h1 : x.1 ∉ dayKeys rest := (List.nodup_cons.1 hnd2).1
      have h2 : (dayKeys rest).Nodup := (List.nodup_cons.1 hnd2).2
      have hDk : D ∈ dayKeys rest := List.mem_map_of_mem Prod.fst hmem
      have hx : x.1 ≠ D := fun hh => h1 (by rw [hh]; exact hDk)
      simp [findDay, hx, ih h2 hmem]

/-! ## Lemmas about the stable sort -/

theorem insertSorted_perm (x : String × ℚ) (l : List (String × ℚ)) :
    (insertSorted x l).Perm (x :: l) := by
  induction l with
  | nil => exact List.Perm.refl _
  | cons y ys ih =>
    simp only [insertSorted]
    by_cases h : pairLt x y
    · simp [h]
    · simp only [h, if_false, Bool.false_eq_true]
      exact (ih.cons y).trans (List.Perm.swap x y ys)

theorem sortPairs_aux (l : List (String × ℚ)) :
    ∀ acc : List (String × ℚ),
      (l.foldl (fun a x => insertSorted x a) acc).Perm (acc ++ l) := by
  induction l with
  | nil => intro acc; simp
  | cons x xs ih =>
    intro acc
    have h1 := ih (insertSorted x acc)
    have h2 : (insertSorted x acc ++ xs).Perm ((x :: acc) ++ xs) :=
      (insertSorted_perm x acc).append_right xs
    have h3 : ((x :: acc) ++ xs).Perm (acc ++ x :: xs) := by
      simpa using List.perm_middle.symm
    simpa using (h1.trans h2).trans h3

theorem sortPairs_perm (l : List (String × ℚ)) : (sortPairs l).Perm l := by
  simpa [sortPairs] using sortPairs_aux l []

/-! ## Lemmas about the attachment guard and uploads -/

theorem processFiles_valid (sel : ℕ) (files : List FileData) :
    ∀ f ∈ processFiles sel files, validateFile f = .ok := by
  have aux : ∀ (fs : List FileData) (acc : List FileData),
      (∀ g ∈ acc, validateFile g = .ok) →
      ∀ f ∈ fs.foldl
        (fun acc f =>
          if validateFile f = .ok then
            if sel + acc.length ≥ 3 then acc
            else acc ++ [f]
          else acc) acc, validateFile f = .ok := by
    intro fs
    induction fs with
    | nil => intro acc hacc f hf; exact hacc f hf
    | cons x xs ih =>
      intro acc hacc f hf
      simp only [List.foldl_cons] at hf
      refine ih _ ?_ f hf
      intro g hg
      simp only at hg
      by_cases hv : validateFile x = FileCheck.ok
      · by_cases hcap : sel + acc.length ≥ 3
        · rw [if_pos hv, if_pos hcap] at hg; exact hacc g hg
        · rw [if_pos hv, if_neg hcap] at hg
          rcases List.mem_append.1 hg with hmem | hmem
          · exact hacc g hmem
          · obtain rfl : g = x := by simpa using hmem
            exact hv
      · rw [if_neg hv] at hg; exact hacc g hg
  intro f hf
  exact aux files [] (by simp) f hf

theorem processFiles_cap (sel : ℕ) (files : List FileData) :
    sel + (processFiles sel files).length ≤ max sel 3 := by
  have aux : ∀ (fs : List FileData) (acc : List FileData),
      sel + (fs.foldl
        (fun acc f =>
          if validateFile f = .ok then
            if sel + acc.length ≥ 3 then acc
            else acc ++ [f]
          else acc) acc).length ≤ max (sel + acc.length) 3 := by
    intro fs
    induction fs with
    | nil => intro acc; exact le_max_left _ _
    | cons x xs ih =>
      intro acc
      simp only [List.foldl_cons]
      refine le_trans (ih _) ?_
      by_cases hv : validateFile x = FileCheck.ok
      · by_cases hcap : sel + acc.length ≥ 3
        · rw [if_pos hv, if_pos hcap]
        · rw [if_pos hv, if_neg hcap]
          simp only [List.length_append, List.length_singleton]
          omega
      · rw [if_neg hv]
  simpa [processFiles] using aux files []

theorem processFiles_at_cap (sel : ℕ) (files : List FileData) (h : 3 ≤ sel) :
    processFiles sel files = [] := by
  have aux : ∀ (fs : List FileData) (acc : List FileData),
      fs.foldl
        (fun acc f =>
          if validateFile f = .ok then
            if sel + acc.length ≥ 3 then acc
            else acc ++ [f]
          else acc) acc = acc := by
    intro fs
    induction fs with
    | nil => intro acc; rfl
    | cons x xs ih =>
      intro acc
      simp only [List.foldl_cons]
      have hstep :
          (if validateFile x = FileCheck.ok then
            if sel + acc.length ≥ 3 then acc
            else acc ++ [x]
          else acc) = acc := by
        by_cases hv : validateFile x = FileCheck.ok
        · rw [if_pos hv, if_pos (le_trans h (Nat.le_add_right sel _))]
        · rw [if_neg hv]
      rw [hstep, ih]
  simpa [processFiles] using aux files []

theorem collectUploads_eq_filterMap (up : FileData → Option String)
    (files : List FileData) :
    collectUploads up files = files.filterMap up := by
  induction files with
  | nil => rfl
  | cons f rest ih =>
    simp only [collectUploads, List.filterMap_cons]
    cases up f <;> simp [ih]

/-! ## Claim theorems -/

set_option maxRecDepth 10000 in
/-- C1: the aggregator's output is NOT always sorted ascending by the
bucket's calendar day.  On entries from 2023-12-31 (pain 5) and
2024-01-01 (pain 3) with a window covering both, `chartData` returns the
2024-01-01 bucket ("Jan 1") before the 2023-12-31 bucket ("Dec 31"),
although 2023-12-31 precedes 2024-01-01: the `.sort` comparator
re-parses the year-less `'MMM d'` label, so the year is dropped and the
pairs are ordered by (month, day) only. -/
theorem C1_sort_drops_year :
    chartData yearEntries yearFrom yearTo = [("Jan 1", 3), ("Dec 31", 5)]
    ∧ labelMMMd ⟨2024, 1, 1⟩ = "Jan 1"
    ∧ labelMMMd ⟨2023, 12, 31⟩ = "Dec 31"
    ∧ dayLe ⟨2023, 12, 31⟩ ⟨2024, 1, 1⟩ = true
    ∧ (⟨2023, 12, 31⟩ : Day) ≠ ⟨2024, 1, 1⟩ :=
  ⟨by with_unfolding_all rfl, by decide, by decide, by decide, by decide⟩

set_option maxRecDepth 10000 in
/-- C2: for every day with at least one retained entry, `chartData`
reports for that day's label the arithmetic mean of the day's retained
pain levels rounded to one decimal; conversely every output pair arises
this way from a nonempty bucket; and on the spec's scenario the output
is `[("Jan 1", 5.0), ("Jan 2", 8.0)]`. -/
theorem C2_daily_mean :
    (∀ (entries : List PainEntry) (f t : DateTime) (D : Day),
        bucket (filterWindow entries f t) D ≠ [] →
        (labelMMMd D,
          round1 (sumPain (bucket (filterWindow entries f t) D)
            / ((bucket (filterWindow entries f t) D).length : ℚ)))
          ∈ chartData entries f t)
    ∧ (∀ (entries : List PainEntry) (f t : DateTime) (pr : String × ℚ),
        pr ∈ chartData entries f t →
        ∃ D : Day, bucket (filterWindow entries f t) D ≠ [] ∧
          pr = (labelMMMd D,
            round1 (sumPain (bucket (filterWindow entries f t) D)
              / ((bucket (filterWindow entries f t) D).length : ℚ))))
    ∧ chartData scenEntries scenFrom scenTo = [("Jan 1", 5), ("Jan 2", 8)] := by
  refine ⟨?_, ?_, by with_unfolding_all rfl⟩
  · intro entries f t D h
    have hfd := dailyData_findDay (filterWindow entries f t) D h
    have hmem := findDay_mem hfd
    have hmap := List.mem_map_of_mem
      (fun x => (labelMMMd x.1, round1 (x.2.1 / (x.2.2 : ℚ)))) hmem
    simp only [chartData]
    exact (sortPairs_perm _).mem_iff.2 hmap
  · intro entries f t pr hpr
    simp only [chartData] at hpr
    have hmem := (sortPairs_perm _).mem_iff.1 hpr
    obtain ⟨x, hx, rfl⟩ := List.mem_map.1 hmem
    have hsome : findDay (dailyData (filterWindow entries f t)) x.1 = some x.2 :=
      findDay_eq_of_mem (dailyData_nodup _) hx
    have hne : bucket (filterWindow entries f t) x.1 ≠ [] := by
      intro hempty
      have haux := dailyData_findDay_aux (filterWindow entries f t) [] x.1
      rw [hempty] at haux
      simp only [findDay, dAcc] at haux
      have hsome2 : findDay ((filterWindow entries f t).foldl
          (fun a e => upsert (dayOf e.date) e.painLevel a) []) x.1 = some x.2 := hsome
      rw [haux] at hsome2
      exact Option.noConfusion hsome2
    have hval := dailyData_findDay (filterWindow entries f t) x.1 hne
    rw [hsome] at hval
    obtain heq := Option.some.inj hval
    refine ⟨x.1, hne, ?_⟩
    rw [heq]

theorem C2_daily_mean_witness :
    (labelMMMd ⟨2024, 1, 1⟩,
      round1 (sumPain (bucket (filterWindow scenEntries scenFrom scenTo) ⟨2024, 1, 1⟩)
        / ((bucket (filterWindow scenEntries scenFrom scenTo) ⟨2024, 1, 1⟩).length : ℚ)))
      ∈ chartData scenEntries scenFrom scenTo :=
  C2_daily_mean.1 scenEntries scenFrom scenTo ⟨2024, 1, 1⟩ (by decide)

/-- C3 counterexample: window bounds and entry share the calendar day
2024-01-05 (so the calendar-day bounds include the entry's day), yet the
entry is retained in no bucket: the filter compares full timestamps and
the entry's midnight timestamp is before the window's 10:00 start. -/
theorem C3_calendar_day_not_sufficient :
    dayLe midFrom.day (dayOf midEntry.date) = true
    ∧ dayLe (dayOf midEntry.date) midTo.day = true
    ∧ filterWindow [midEntry] midFrom midTo = []
    ∧ chartData [midEntry] midFrom midTo = [] :=
  ⟨by decide, by decide, by decide, by decide⟩

/-- C3 (amended): an entry contributes to a bucket exactly when its full
observation timestamp lies in `[from, to]` inclusive (and its day is the
bucket's); an entry whose timestamp is outside the window contributes to
no bucket.  Calendar-day containment alone does not suffice. -/
theorem C3_window_membership :
    ∀ (entries : List PainEntry) (f t : DateTime) (D : Day) (e : PainEntry),
      (e ∈ bucket (filterWindow entries f t) D →
        e ∈ entries ∧ dtLe f e.date = true ∧ dtLe e.date t = true)
      ∧ (e ∈ entries → dtLe f e.date = true → dtLe e.date t = true →
          dayOf e.date = D → e ∈ bucket (filterWindow entries f t) D)
      ∧ ((dtLe f e.date = false ∨ dtLe e.date t = false) →
          e ∉ bucket (filterWindow entries f t) D) := by
  intro entries f t D e
  refine ⟨?_, ?_, ?_⟩
  · intro h
    have h1 := List.mem_filter.1 h
    have h2 := List.mem_filter.1 h1.1
    have h3 := h2.2
    rw [Bool.and_eq_true] at h3
    exact ⟨h2.1, h3.1, h3.2⟩
  · intro h1 h2 h3 h4
    refine List.mem_filter.2 ⟨List.mem_filter.2 ⟨h1, ?_⟩, ?_⟩
    · rw [Bool.and_eq_true]; exact ⟨h2, h3⟩
    · exact decide_eq_true h4
  · intro h hmem
    have h1 := (List.mem_filter.1 hmem).1
    have h2 := (List.mem_filter.1 h1).2
    rw [Bool.and_eq_true] at h2
    rcases h with h | h
    · rw [h2.1] at h; exact Bool.noConfusion h
    · rw [h2.2] at h; exact Bool.noConfusion h

theorem C3_window_membership_witness :
    midEntry ∉ bucket (filterWindow [midEntry] midFrom midTo) ⟨2024, 1, 5⟩ :=
  (C3_window_membership [midEntry] midFrom midTo ⟨2024, 1, 5⟩ midEntry).2.2
    (Or.inl (by decide))

/-- C4: `validateFile` accepts a 5,242,880-byte file of an allowed type,
returns the size reason for any file of 5,242,881 bytes or more, rejects
every file of a type outside the allow-list regardless of size, the two
rejection reasons are characterized (hence distinguishable), and a file
the guard rejects is never queued by `handleFileChange`. -/
theorem C4_attachment_guard :
    validateFile ⟨"s.png", 5242880, "image/png"⟩ = .ok
    ∧ (∀ f : FileData, 5242881 ≤ f.size → validateFile f = .tooLarge)
    ∧ (∀ f : FileData, f.type ∉ ACCEPTED_IMAGE_TYPES → validateFile f ≠ .ok)
    ∧ (∀ f : FileData, validateFile f = .tooLarge ↔ MAX_FILE_SIZE < f.size)
    ∧ (∀ f : FileData, validateFile f = .badType ↔
        (f.size ≤ MAX_FILE_SIZE ∧ f.type ∉ ACCEPTED_IMAGE_TYPES))
    ∧ (∀ (st : FeedbackState) (files : List FileData) (mkUrl : FileData → String)
        (f : FileData), validateFile f ≠ .ok →
        f ∈ (handleFileChange st files mkUrl).selectedFiles →
        f ∈ st.selectedFiles) := by
  refine ⟨by decide, ?_, ?_, ?_, ?_, ?_⟩
  · intro f h
    unfold validateFile
    rw [if_pos (show MAX_FILE_SIZE < f.size by simp only [MAX_FILE_SIZE]; omega)]
  · intro f h
    unfold validateFile
    by_cases h1 : MAX_FILE_SIZE < f.size
    · rw [if_pos h1]
      exact fun hc => FileCheck.noConfusion hc
    · rw [if_neg h1, if_pos h]
      exact fun hc => FileCheck.noConfusion hc
  · intro f
    unfold validateFile
    by_cases h1 : MAX_FILE_SIZE < f.size
    · rw [if_pos h1]
      simp [h1]
    · rw [if_neg h1]
      by_cases h2 : f.type ∈ ACCEPTED_IMAGE_TYPES
      · rw [if_neg (not_not.2 h2)]
        simp [h1]
      · rw [if_pos h2]
        simp [h1]
  · intro f
    unfold validateFile
    by_cases h1 : MAX_FILE_SIZE < f.size
    · rw [if_pos h1]
      simp [not_le.2 h1]
    · rw [if_neg h1]
      by_cases h2 : f.type ∈ ACCEPTED_IMAGE_TYPES
      · rw [if_neg (not_not.2 h2)]
        simp [le_of_not_lt h1, h2]
      · rw [if_pos h2]
        simp [le_of_not_lt h1, h2]
  · intro st files mkUrl f hne hmem
    simp only [handleFileChange] at hmem
    rcases List.mem_append.1 hmem with h | h
    · exact h
    · exact absurd (processFiles_valid _ _ f h) hne

theorem C4_attachment_guard_witness :
    validateFile ⟨"big.png", 5242881, "image/png"⟩ = .tooLarge
    ∧ validateFile ⟨"a.gif", 10, "image/gif"⟩ ≠ .ok :=
  ⟨C4_attachment_guard.2.1 ⟨"big.png", 5242881, "image/png"⟩ (by decide),
   C4_attachment_guard.2.2.1 ⟨"a.gif", 10, "image/gif"⟩ (by decide)⟩

/-- C5: every reachable state of the feedback form's attachment
selection has at most 3 queued files (so `handleFileChange` never
leaves more than 3 queued); starting from at most 3 queued the bound is
preserved; and when exactly 3 are queued, any further batch is rejected
with the state (files and preview URLs) unchanged. -/
theorem C5_batch_cap :
    (∀ st : FeedbackState, FormReachable st → st.selectedFiles.length ≤ 3)
    ∧ (∀ (st : FeedbackState) (files : List FileData)
        (mkUrl : FileData → String), st.selectedFiles.length ≤ 3 →
        (handleFileChange st files mkUrl).selectedFiles.length ≤ 3)
    ∧ (∀ (st : FeedbackState) (files : List FileData)
        (mkUrl : FileData → String), st.selectedFiles.length = 3 →
        handleFileChange st files mkUrl = st) := by
  have hstep : ∀ (st : FeedbackState) (files : List FileData)
      (mkUrl : FileData → String), st.selectedFiles.length ≤ 3 →
      (handleFileChange st files mkUrl).selectedFiles.length ≤ 3 := by
    intro st files mkUrl h
    have hcap := processFiles_cap st.selectedFiles.length files
    simp only [handleFileChange, List.length_append]
    omega
  refine ⟨?_, hstep, ?_⟩
  · intro st hreach
    induction hreach with
    | init => simp
    | file st files mkUrl _ ih => exact hstep st files mkUrl ih
    | remove st i _ ih =>
      simp only [removeFile]
      exact le_trans (List.length_eraseIdx_le _ _) ih
  · intro st files mkUrl h3
    have hempty := processFiles_at_cap st.selectedFiles.length files (by omega)
    obtain ⟨selF, urls⟩ := st
    simp only [handleFileChange, hempty, List.map_nil, List.append_nil]

theorem C5_batch_cap_witness :
    (handleFileChange ⟨[], []⟩ [⟨"a.png", 10, "image/png"⟩]
        (fun _ => "blob:a")).selectedFiles.length ≤ 3
    ∧ handleFileChange
        ⟨[⟨"x", 1, "image/png"⟩, ⟨"y", 2, "image/png"⟩, ⟨"z", 3, "image/png"⟩],
         ["ux", "uy", "uz"]⟩
        [⟨"w", 4, "image/png"⟩] (fun _ => "blob:w")
      = ⟨[⟨"x", 1, "image/png"⟩, ⟨"y", 2, "image/png"⟩, ⟨"z", 3, "image/png"⟩],
         ["ux", "uy", "uz"]⟩ :=
  ⟨C5_batch_cap.2.1 ⟨[], []⟩ [⟨"a.png", 10, "image/png"⟩] (fun _ => "blob:a")
      (by decide),
   C5_batch_cap.2.2 _ [⟨"w", 4, "image/png"⟩] (fun _ => "blob:w")
      (by decide)⟩

/-- C6: within one submission the uploads are attempted over the queued
files in order; the created record's attachment list is exactly the
retrieval URLs of the successful uploads in their original relative
order (`filterMap`), regardless of which individual uploads fail, and
its length is between 0 and 3 when at most 3 files were queued. -/
theorem C6_partial_success :
    ∀ (uid email fb : String) (up : FileData → Option String)
      (files : List FileData),
      (submitFeedback uid email fb up files).attachments = files.filterMap up
      ∧ (submitFeedback uid email fb up files).attachments.length ≤ files.length
      ∧ (files.length ≤ 3 →
          (submitFeedback uid email fb up files).attachments.length ≤ 3)
      ∧ (submitFeedback uid email fb up files).feedback = fb
      ∧ (submitFeedback uid email fb up files).userId = uid := by
  intro uid email fb up files
  have heq : (submitFeedback uid email fb up files).attachments
      = files.filterMap up := collectUploads_eq_filterMap up files
  refine ⟨heq, ?_, ?_, rfl, rfl⟩
  · rw [heq]; exact List.length_filterMap_le up files
  · intro h3
    rw [heq]
    exact le_trans (List.length_filterMap_le up files) h3

theorem C6_partial_success_witness :
    (submitFeedback "u1" "u@x.io" "the chart is great"
        (fun f => if f.name = "b.png" then none else some ("url-" ++ f.name))
        [⟨"a.png", 1, "image/png"⟩, ⟨"b.png", 2, "image/png"⟩,
         ⟨"c.png", 3, "image/png"⟩]).attachments.length ≤ 3 :=
  (C6_partial_success "u1" "u@x.io" "the chart is great"
      (fun f => if f.name = "b.png" then none else some ("url-" ++ f.name))
      [⟨"a.png", 1, "image/png"⟩, ⟨"b.png", 2, "image/png"⟩,
       ⟨"c.png", 3, "image/png"⟩]).2.2.1 (by decide)

/-- C7: an inverted window (`from > to`, i.e. not `from <= to`) makes
the aggregator return the empty sequence for every entry collection, and
the empty entry collection yields the empty sequence for every window;
`chartData` is a total function, so no error is raised. -/
theorem C7_degenerate_windows :
    (∀ (entries : List PainEntry) (f t : DateTime),
        dtLe f t = false → chartData entries f t = [])
    ∧ (∀ f t : DateTime, chartData [] f t = []) := by
  constructor
  · intro entries f t h
    have hfil : filterWindow entries f t = [] := by
      rw [filterWindow, List.filter_eq_nil_iff]
      intro e he hcon
      rw [Bool.and_eq_true] at hcon
      have hft : dtKey f ≤ dtKey t :=
        le_trans (of_decide_eq_true hcon.1) (of_decide_eq_true hcon.2)
      rw [show dtLe f t = decide (dtKey f ≤ dtKey t) from rfl,
        decide_eq_true hft] at h
      exact Bool.noConfusion h
    rw [chartData, hfil]
    rfl
  · intro f t; rfl

theorem C7_degenerate_windows_witness :
    chartData [midEntry] ⟨⟨2024, 2, 1⟩, 0⟩ ⟨⟨2024, 1, 1⟩, 0⟩ = [] :=
  C7_degenerate_windows.1 [midEntry] ⟨⟨2024, 2, 1⟩, 0⟩ ⟨⟨2024, 1, 1⟩, 0⟩
    (by decide)

/-- C8 counterexample: the registration schema accepts a display name of
51 characters (its rule is only `min(2)`, with no `max(50)`), so the
claim that every display-name form enforces 2–50 fails at the
registration form. -/
theorem C8_register_accepts_51 :
    registerDisplayNameValid (String.mk (List.replicate 51 'a')) = true
    ∧ (String.mk (List.replicate 51 'a')).length = 51
    ∧ settingsDisplayNameValid (String.mk (List.replicate 51 'a')) = false :=
  ⟨by decide, by decide, by decide⟩

/-- C8 (amended): the settings schema accepts a display name exactly
when its length is between 2 and 50 inclusive; the registration schema
checks only the lower bound, accepting any name of length at least 2. -/
theorem C8_display_name_rules :
    ∀ s : String,
      (settingsDisplayNameValid s = true ↔ (2 ≤ s.length ∧ s.length ≤ 50))
      ∧ (registerDisplayNameValid s = true ↔ 2 ≤ s.length) := by
  intro s
  constructor
  · simp [settingsDisplayNameValid]
  · simp [registerDisplayNameValid]

theorem C8_display_name_rules_witness :
    settingsDisplayNameValid "Jo" = true ↔
      (2 ≤ ("Jo" : String).length ∧ ("Jo" : String).length ≤ 50) :=
  (C8_display_name_rules "Jo").1

/-- C9 counterexample: the entry schema accepts the non-integer pain
level 5.5 (`z.number().min(0).max(10)` checks only the range, not
integrality), so validation does not accept exactly the integers 0–10. -/
theorem C9_accepts_fractional :
    entryPainLevelValid (11 / 2 : ℚ) = true ∧ ((11 / 2 : ℚ)).den = 2 :=
  ⟨by with_unfolding_all rfl, by with_unfolding_all rfl⟩

/-- C9 (amended): the entry schema's pain-level rule accepts exactly the
numbers in `[0, 10]` (integrality is not checked by the schema); the
slider (`min 0, max 10, step 1`) can only produce the integers 0–10, and
each of those passes the rule. -/
theorem C9_pain_level_rule :
    (∀ q : ℚ, entryPainLevelValid q = true ↔ (0 ≤ q ∧ q ≤ 10))
    ∧ (∀ q ∈ sliderPainValues, entryPainLevelValid q = true ∧ q.den = 1) := by
  constructor
  · intro q
    simp [entryPainLevelValid]
  · intro q hq
    rw [sliderPainValues] at hq
    obtain ⟨n, hn, rfl⟩ := List.mem_map.1 hq
    rw [List.mem_range] at hn
    refine ⟨?_, Rat.den_natCast n⟩
    simp only [entryPainLevelValid, Bool.and_eq_true, decide_eq_true_eq]
    exact ⟨Nat.cast_nonneg n, by exact_mod_cast Nat.le_of_lt_succ hn⟩

theorem C9_pain_level_rule_witness :
    entryPainLevelValid 5 = true ↔ (0 ≤ (5 : ℚ) ∧ (5 : ℚ) ≤ 10) :=
  C9_pain_level_rule.1 5

/-- C10: a file of exactly 5,242,880 bytes of an allowed image type
passes the client-side `validateFile` (which rejects only sizes strictly
above 5,242,880) but fails the storage rule (which requires size
strictly below 5,242,880); that byte count is the unique size on which
the two size predicates disagree. -/
theorem C10_client_storage_boundary :
    validateFile ⟨"edge.png", 5242880, "image/png"⟩ = .ok
    ∧ feedbackAttachmentCreateAllowed (some "u1") "u1" 5242880 "image/png" = false
    ∧ (∀ size : ℕ,
        (¬ MAX_FILE_SIZE < size ∧ ¬ size < 5 * 1024 * 1024) ↔ size = 5242880) := by
  refine ⟨by decide, by with_unfolding_all rfl, ?_⟩
  intro size
  simp only [MAX_FILE_SIZE]
  omega

theorem C10_client_storage_boundary_witness :
    (¬ MAX_FILE_SIZE < 5242880 ∧ ¬ 5242880 < 5 * 1024 * 1024) ↔
      5242880 = 5242880 :=
  C10_client_storage_boundary.2.2 5242880
